import Mathlib

/-!
Verification of the per-user rate limiter, rolling-context, quota and
access-control subsystems of the vk-chatgpt-bot repository.

Shallow embedding conventions:
* Python `time.time()` instants and durations are modelled as `Int`
  (timestamps are compared and subtracted, never otherwise inspected).
* Python lists and `collections.deque` become `List`; `deque.popleft`
  loops guarded by a head predicate become `List.dropWhile`.
* Python slice `l[i:]` (with a possibly negative start) is modelled by
  `pySliceFrom`, matching CPython clamping semantics.
* Stateful methods become functions from the touched state to the new
  state plus the returned value.
-/

namespace VkBot

/-! ## Data model: messages and rolling context (`src/repositories/models.py`) -/

/-- `MessageRole` enum from `repositories/models.py`. -/
inductive MessageRole where
  | user
  | assistant
  | system
deriving DecidableEq, Repr

/-- `Message` dataclass (the `datetime` timestamp field carries no logic
and is omitted from the embedding). -/
structure Msg where
  role : MessageRole
  content : String
deriving DecidableEq, Repr

/-- Python slice `l[i:]` for an `Int` start index `i`:
nonnegative `i` drops the first `i` elements; negative `i` keeps the last
`-i` elements (clamped to the whole list when `-i` exceeds the length). -/
def pySliceFrom (l : List α) (i : Int) : List α :=
  if 0 ≤ i then l.drop i.toNat else l.drop (l.length - i.natAbs)

/-- `UserContext` dataclass. -/
structure UserContext where
  user_id : Int
  messages : List Msg
  max_messages : Nat
deriving Repr

/-- `UserContext.add_message`: append, then if the buffer exceeds
`max_messages`, keep every system-role message plus the Python slice
`other_messages[-(max_messages - len(system_messages)):]` of the rest. -/
def UserContext.add_message (ctx : UserContext) (role : MessageRole) (content : String) :
    UserContext :=
  let msgs := ctx.messages ++ [⟨role, content⟩]
  if ctx.max_messages < msgs.length then
    let system_messages := msgs.filter (fun m => m.role == MessageRole.system)
    let other_messages := msgs.filter (fun m => m.role != MessageRole.system)
    let recent_messages :=
      pySliceFrom other_messages
        ((system_messages.length : Int) - (ctx.max_messages : Int))
    { ctx with messages := system_messages ++ recent_messages }
  else
    { ctx with messages := msgs }

/-- Fold a sequence of `add_message` calls over a context. -/
def UserContext.add_all (ctx : UserContext) (items : List (MessageRole × String)) :
    UserContext :=
  items.foldl (fun c it => c.add_message it.1 it.2) ctx

/-- A fresh context as created by `UserService.add_message_to_context`
(empty message list, capacity from the current settings). -/
def freshContext (uid : Int) (maxMessages : Nat) : UserContext :=
  { user_id := uid, messages := [], max_messages := maxMessages }

/-- Number of system-role messages in a buffer. -/
def sysCount (l : List Msg) : Nat :=
  l.countP (fun m => m.role == MessageRole.system)

/-- Number of system-role entries in a pending append sequence. -/
def sysCountItems (items : List (MessageRole × String)) : Nat :=
  items.countP (fun it => it.1 == MessageRole.system)

/-! ### Context-trim lemmas -/

theorem pySliceFrom_subset (l : List α) (i : Int) : pySliceFrom l i ⊆ l := by
  unfold pySliceFrom
  split <;> exact List.drop_subset _ _

theorem add_message_no_trim (ctx : UserContext) (r : MessageRole) (c : String)
    (h : ctx.messages.length + 1 ≤ ctx.max_messages) :
    ctx.add_message r c = { ctx with messages := ctx.messages ++ [Msg.mk r c] } := by
  unfold UserContext.add_message
  rw [if_neg]
  simp only [List.length_append, List.length_cons, List.length_nil]
  omega

/-- The buffer produced by the trim branch of `add_message`, as a function
of the capacity and the already-appended buffer (named subterm of the
source method, introduced for reasoning). -/
def trimmedMessages (maxm : Nat) (msgs : List Msg) : List Msg :=
  msgs.filter (fun m => m.role == MessageRole.system)
    ++ pySliceFrom (msgs.filter (fun m => m.role != MessageRole.system))
        (((msgs.filter (fun m => m.role == MessageRole.system)).length : Int) - (maxm : Int))

theorem add_message_trim (ctx : UserContext) (r : MessageRole) (c : String)
    (h : ctx.max_messages < ctx.messages.length + 1) :
    (ctx.add_message r c).messages
        = trimmedMessages ctx.max_messages (ctx.messages ++ [Msg.mk r c]) ∧
    (ctx.add_message r c).max_messages = ctx.max_messages := by
  unfold UserContext.add_message
  rw [if_pos (by simp only [List.length_append, List.length_cons, List.length_nil]; omega)]
  exact ⟨rfl, rfl⟩

theorem sysCount_append (l1 l2 : List Msg) :
    sysCount (l1 ++ l2) = sysCount l1 + sysCount l2 := by
  simp [sysCount, List.countP_append]

theorem sysCount_filter_sys (l : List Msg) :
    sysCount (l.filter (fun m => m.role == MessageRole.system))
      = (l.filter (fun m => m.role == MessageRole.system)).length := by
  rw [sysCount, List.countP_eq_length]
  intro m hm
  exact (List.mem_filter.mp hm).2

theorem length_filter_sys (l : List Msg) :
    (l.filter (fun m => m.role == MessageRole.system)).length = sysCount l := by
  simp [sysCount, List.countP_eq_length_filter]

theorem sysCount_of_subset_nonsys (l r : List Msg)
    (h : r ⊆ l.filter (fun m => m.role != MessageRole.system)) :
    sysCount r = 0 := by
  rw [sysCount, List.countP_eq_zero]
  intro m hm
  have := (List.mem_filter.mp (h hm)).2
  simpa [bne] using this

theorem trimmedMessages_spec (maxm : Nat) (msgs : List Msg) (hlt : sysCount msgs < maxm) :
    (trimmedMessages maxm msgs).length ≤ maxm ∧
    sysCount (trimmedMessages maxm msgs) = sysCount msgs := by
  have hslen : (msgs.filter (fun m => m.role == MessageRole.system)).length = sysCount msgs :=
    length_filter_sys msgs
  unfold trimmedMessages
  have hslice : pySliceFrom (msgs.filter (fun m => m.role != MessageRole.system))
        (((msgs.filter (fun m => m.role == MessageRole.system)).length : Int) - (maxm : Int))
      = (msgs.filter (fun m => m.role != MessageRole.system)).drop
          ((msgs.filter (fun m => m.role != MessageRole.system)).length
            - (maxm - sysCount msgs)) := by
    unfold pySliceFrom
    rw [if_neg (by omega)]
    congr 1
    omega
  rw [hslice]
  constructor
  · rw [List.length_append, List.length_drop]
    omega
  · rw [sysCount_append, sysCount_filter_sys,
      sysCount_of_subset_nonsys msgs _ (List.drop_subset _ _), hslen]
    omega

theorem add_message_invariant (ctx : UserContext) (r : MessageRole) (c : String)
    (hlen : ctx.messages.length ≤ ctx.max_messages)
    (hsys : sysCount ctx.messages + (if r == MessageRole.system then 1 else 0)
              < ctx.max_messages) :
    (ctx.add_message r c).messages.length ≤ ctx.max_messages ∧
    sysCount (ctx.add_message r c).messages
      = sysCount ctx.messages + (if r == MessageRole.system then 1 else 0) ∧
    (ctx.add_message r c).max_messages = ctx.max_messages := by
  have hcount : sysCount (ctx.messages ++ [Msg.mk r c])
      = sysCount ctx.messages + (if r == MessageRole.system then 1 else 0) := by
    simp [sysCount, List.countP_append, List.countP_cons]
  by_cases hif : ctx.max_messages < ctx.messages.length + 1
  · have ht := add_message_trim ctx r c hif
    have hspec := trimmedMessages_spec ctx.max_messages (ctx.messages ++ [Msg.mk r c])
      (by omega)
    exact ⟨by rw [ht.1]; exact hspec.1, by rw [ht.1, hspec.2, hcount], ht.2⟩
  · rw [add_message_no_trim ctx r c (by omega)]
    refine ⟨?_, ?_, rfl⟩
    · simp only [List.length_append, List.length_cons, List.length_nil]
      omega
    · exact hcount

theorem add_all_cons (ctx : UserContext) (it : MessageRole × String)
    (rest : List (MessageRole × String)) :
    ctx.add_all (it :: rest) = (ctx.add_message it.1 it.2).add_all rest := rfl

theorem add_all_invariant :
    ∀ (items : List (MessageRole × String)) (ctx : UserContext),
    ctx.messages.length ≤ ctx.max_messages →
    sysCount ctx.messages + sysCountItems items < ctx.max_messages →
    (ctx.add_all items).messages.length ≤ ctx.max_messages ∧
    sysCount (ctx.add_all items).messages = sysCount ctx.messages + sysCountItems items ∧
    (ctx.add_all items).max_messages = ctx.max_messages := by
  intro items
  induction items with
  | nil =>
    intro ctx hlen _
    exact ⟨hlen, by simp [UserContext.add_all, sysCountItems], rfl⟩
  | cons it rest ih =>
    intro ctx hlen hsys
    have hitems : sysCountItems (it :: rest)
        = (if it.1 == MessageRole.system then 1 else 0) + sysCountItems rest := by
      simp [sysCountItems, List.countP_cons]
      omega
    have hstep := add_message_invariant ctx it.1 it.2 hlen (by omega)
    rw [add_all_cons]
    have hrec := ih (ctx.add_message it.1 it.2)
      (by rw [hstep.2.2] at *; exact hstep.1)
      (by rw [hstep.2.2, hstep.2.1]; omega)
    refine ⟨by rw [← hstep.2.2]; exact hrec.1, ?_, by rw [hrec.2.2, hstep.2.2]⟩
    rw [hrec.2.1, hstep.2.1]
    omega

theorem add_all_append (ctx : UserContext) (l1 l2 : List (MessageRole × String)) :
    ctx.add_all (l1 ++ l2) = (ctx.add_all l1).add_all l2 := by
  simp [UserContext.add_all, List.foldl_append]

theorem add_all_no_trim :
    ∀ (items : List (MessageRole × String)) (ctx : UserContext),
    ctx.messages.length + items.length ≤ ctx.max_messages →
    ctx.add_all items
      = { ctx with messages := ctx.messages ++ items.map (fun it => Msg.mk it.1 it.2) } := by
  intro items
  induction items with
  | nil =>
    intro ctx _
    simp [UserContext.add_all]
  | cons it rest ih =>
    intro ctx h
    simp only [List.length_cons] at h
    rw [add_all_cons, add_message_no_trim ctx it.1 it.2 (by omega)]
    rw [ih _ (by simp only [List.length_append, List.length_cons, List.length_nil]; omega)]
    simp [List.append_assoc]

theorem add_all_no_trim_proj (items : List (MessageRole × String)) (ctx : UserContext)
    (h : ctx.messages.length + items.length ≤ ctx.max_messages) :
    (ctx.add_all items).messages
        = ctx.messages ++ items.map (fun it => Msg.mk it.1 it.2) ∧
    (ctx.add_all items).max_messages = ctx.max_messages := by
  rw [add_all_no_trim items ctx h]
  exact ⟨rfl, rfl⟩

theorem filter_sys_cons_nonsys (c0 : String) (l : List Msg)
    (h : ∀ x ∈ l, x.role ≠ MessageRole.system) :
    (Msg.mk MessageRole.system c0 :: l).filter (fun m => m.role == MessageRole.system)
        = [Msg.mk MessageRole.system c0] ∧
    (Msg.mk MessageRole.system c0 :: l).filter (fun m => m.role != MessageRole.system) = l := by
  constructor
  · rw [List.filter_cons_of_pos (by simp)]
    rw [List.filter_eq_nil_iff.mpr (fun a ha => by simpa using h a ha)]
  · rw [List.filter_cons_of_neg (by simp)]
    exact List.filter_eq_self.mpr (fun a ha => by simpa [bne] using h a ha)

theorem trimmedMessages_one_sys (m : Nat) (hm : 2 ≤ m) (c0 : String) (others : List Msg)
    (hlen : others.length = m) (h : ∀ x ∈ others, x.role ≠ MessageRole.system) :
    trimmedMessages m (Msg.mk MessageRole.system c0 :: others)
      = Msg.mk MessageRole.system c0 :: others.drop 1 := by
  unfold trimmedMessages
  rw [(filter_sys_cons_nonsys c0 others h).1, (filter_sys_cons_nonsys c0 others h).2]
  unfold pySliceFrom
  rw [if_neg (by simp only [List.length_cons, List.length_nil]; omega)]
  simp only [List.length_cons, List.length_nil]
  have h2 : (((0 + 1 : Nat) : Int) - (m : Int)).natAbs = m - 1 := by
    omega
  rw [h2, hlen]
  have h3 : m - (m - 1) = 1 := by omega
  rw [h3]
  rfl

theorem add_all_singleton (ctx : UserContext) (it : MessageRole × String) :
    ctx.add_all [it] = ctx.add_message it.1 it.2 := rfl

/-! ### Claim C4: context capacity invariant -/

/-- C4 counterexample: with `max_messages = 1`, appending a system message
and then a user message leaves 2 stored messages, exceeding the capacity —
the claimed invariant `len(messages) <= max_messages` fails. -/
theorem context_capacity_counterexample :
    1 ≤ (freshContext 1 1).max_messages ∧
    ¬ (((freshContext 1 1).add_all
          [(MessageRole.system, "a"), (MessageRole.user, "b")]).messages.length
        ≤ (freshContext 1 1).max_messages) := by
  decide

/-- C4 (amended): the capacity invariant `len(messages) <= max_messages`
holds after every `add_message` call provided the appended sequence keeps
the total number of system-role messages strictly below `max_messages`
(the source trim keeps every system message and, once their count reaches
`max_messages`, the Python slice `[-0:]` retains all remaining messages,
so the bound can then be exceeded). -/
theorem context_capacity_invariant (ctx : UserContext) (items : List (MessageRole × String))
    (hlen : ctx.messages.length ≤ ctx.max_messages)
    (hsys : sysCount ctx.messages + sysCountItems items < ctx.max_messages) :
    ∀ n : Nat, ((ctx.add_all (items.take n)).messages.length ≤ ctx.max_messages) := by
  intro n
  have hsub : sysCountItems (items.take n) ≤ sysCountItems items := by
    unfold sysCountItems
    exact (List.take_sublist n items).countP_le _
  exact (add_all_invariant (items.take n) ctx hlen (by omega)).1

theorem context_capacity_invariant_witness :
    ((freshContext 1 3).add_all
        ([(MessageRole.system, "a"), (MessageRole.user, "b")].take 2)).messages.length
      ≤ (freshContext 1 3).max_messages :=
  context_capacity_invariant (freshContext 1 3)
    [(MessageRole.system, "a"), (MessageRole.user, "b")] (by decide) (by decide) 2

/-! ### Claim C5: system-message preservation -/

/-- C5 counterexample: with `max_messages = 1` (allowed by the claim,
which requires only `max_messages >= 1`), one system message followed by
1 non-system message leaves both messages in the context, not the system
message plus `max_messages - 1 = 0` non-system messages. -/
theorem system_preservation_counterexample :
    ¬ (((freshContext 1 1).add_all
          [(MessageRole.system, "a"), (MessageRole.user, "b")]).messages
        = [Msg.mk MessageRole.system "a"]) := by
  decide

/-- C5 (amended): for `max_messages >= 2`, appending one system message and
then `max_messages` non-system messages to an empty context leaves the
system message first, followed by exactly the `max_messages - 1` most
recent non-system messages (at `max_messages = 1` the Python slice `[-0:]`
instead retains the non-system message as well). -/
theorem system_message_preservation (uid : Int) (m : Nat) (hm : 2 ≤ m) (c0 : String)
    (rest : List (MessageRole × String)) (hlen : rest.length = m)
    (hns : ∀ it ∈ rest, it.1 ≠ MessageRole.system) :
    ((freshContext uid m).add_all ((MessageRole.system, c0) :: rest)).messages
      = Msg.mk MessageRole.system c0 :: (rest.map (fun it => Msg.mk it.1 it.2)).drop 1 := by
  have hne : rest ≠ [] := by
    intro h
    rw [h] at hlen
    simp at hlen
    omega
  obtain ⟨front, lastIt, hfl⟩ : ∃ front lastIt, rest = front ++ [lastIt] :=
    ⟨rest.dropLast, rest.getLast hne, (List.dropLast_append_getLast hne).symm⟩
  have hfront : front.length + 1 = m := by
    rw [hfl] at hlen
    simpa using hlen
  rw [hfl]
  rw [show (MessageRole.system, c0) :: (front ++ [lastIt])
        = ((MessageRole.system, c0) :: front) ++ [lastIt] from rfl]
  rw [add_all_append]
  rw [add_all_singleton]
  obtain ⟨hA1, hA2⟩ := add_all_no_trim_proj ((MessageRole.system, c0) :: front)
    (freshContext uid m)
    (by simp only [freshContext, List.length_nil, List.length_cons]; omega)
  have hA1n : ((freshContext uid m).add_all ((MessageRole.system, c0) :: front)).messages
      = Msg.mk MessageRole.system c0
          :: front.map (fun it : MessageRole × String => Msg.mk it.1 it.2) := by
    rw [hA1]
    simp [freshContext]
  have hA2n : ((freshContext uid m).add_all
      ((MessageRole.system, c0) :: front)).max_messages = m := by
    rw [hA2]
    rfl
  have htrim := add_message_trim
    ((freshContext uid m).add_all ((MessageRole.system, c0) :: front)) lastIt.1 lastIt.2
    (by
      rw [hA2n, hA1n]
      simp only [List.length_cons, List.length_map]
      omega)
  rw [htrim.1, hA2n, hA1n]
  rw [show (Msg.mk MessageRole.system c0
        :: front.map (fun it : MessageRole × String => Msg.mk it.1 it.2))
        ++ [Msg.mk lastIt.1 lastIt.2]
      = Msg.mk MessageRole.system c0
          :: (front.map (fun it : MessageRole × String => Msg.mk it.1 it.2)
              ++ [Msg.mk lastIt.1 lastIt.2]) from rfl]
  rw [trimmedMessages_one_sys m hm c0
    (front.map (fun it : MessageRole × String => Msg.mk it.1 it.2) ++ [Msg.mk lastIt.1 lastIt.2])
    (by simp only [List.length_append, List.length_map, List.length_cons, List.length_nil]; omega)
    (by
      intro x hx
      rcases List.mem_append.mp hx with hx | hx
      · obtain ⟨it, hit, rfl⟩ := List.mem_map.mp hx
        exact hns it (hfl ▸ List.mem_append.mpr (Or.inl hit))
      · rw [List.mem_singleton.mp hx]
        exact hns lastIt (hfl ▸ List.mem_append.mpr (Or.inr (List.mem_singleton.mpr rfl))))]
  simp [List.map_append]

theorem system_message_preservation_witness :
    ((freshContext 1 2).add_all
        ((MessageRole.system, "s") :: [(MessageRole.user, "u1"), (MessageRole.assistant, "a1")])).messages
      = Msg.mk MessageRole.system "s"
        :: ([(MessageRole.user, "u1"), (MessageRole.assistant, "a1")].map
              (fun it => Msg.mk it.1 it.2)).drop 1 :=
  system_message_preservation 1 2 (by decide) "s"
    [(MessageRole.user, "u1"), (MessageRole.assistant, "a1")] (by decide) (by decide)

/-! ### Claim C6: trim with `count(system) >= max_messages` -/

/-- C6 counterexample: trim runs with one system message and
`max_messages = 1` (so `count(system) >= max_messages`), yet the retained
non-system slice is not empty — the user message survives, because the
Python slice `[-(1-1):] = [-0:]` keeps the whole non-system list. -/
theorem trim_only_system_counterexample :
    ((UserContext.mk 1 [Msg.mk MessageRole.system "a"] 1).add_message
        MessageRole.user "b").messages.filter (fun m => m.role != MessageRole.system)
      ≠ [] := by
  decide

/-- C6 (amended): whenever the trim policy runs with
`count(system) >= max_messages`, the retained non-system slice is the
non-system messages with their first `count(system) - max_messages`
entries dropped; in particular at `count(system) = max_messages` every
non-system message is retained (the slice is empty only when there are at
most `count(system) - max_messages` non-system messages). -/
theorem trim_many_system_messages (ctx : UserContext) (r : MessageRole) (c : String)
    (htrim : ctx.max_messages < ctx.messages.length + 1)
    (hsys : ctx.max_messages ≤ sysCount (ctx.messages ++ [Msg.mk r c])) :
    (ctx.add_message r c).messages
      = (ctx.messages ++ [Msg.mk r c]).filter (fun m => m.role == MessageRole.system)
        ++ ((ctx.messages ++ [Msg.mk r c]).filter (fun m => m.role != MessageRole.system)).drop
            (sysCount (ctx.messages ++ [Msg.mk r c]) - ctx.max_messages) := by
  rw [(add_message_trim ctx r c htrim).1]
  unfold trimmedMessages pySliceFrom
  rw [length_filter_sys]
  rw [if_pos (by omega)]
  have htn : (((sysCount (ctx.messages ++ [Msg.mk r c])) : Int)
        - (ctx.max_messages : Int)).toNat
      = sysCount (ctx.messages ++ [Msg.mk r c]) - ctx.max_messages := by
    omega
  rw [htn]

theorem trim_many_system_messages_witness :
    ((UserContext.mk 1 [Msg.mk MessageRole.system "a"] 1).add_message
        MessageRole.user "b").messages
      = ([Msg.mk MessageRole.system "a"] ++ [Msg.mk MessageRole.user "b"]).filter
          (fun m => m.role == MessageRole.system)
        ++ (([Msg.mk MessageRole.system "a"] ++ [Msg.mk MessageRole.user "b"]).filter
              (fun m => m.role != MessageRole.system)).drop
            (sysCount ([Msg.mk MessageRole.system "a"] ++ [Msg.mk MessageRole.user "b"]) - 1) :=
  trim_many_system_messages ⟨1, [Msg.mk MessageRole.system "a"], 1⟩ MessageRole.user "b"
    (by decide) (by decide)

/-! ## Rate limiter (`src/bot/middlewares/rate_limit.py`) -/

/-- The rate-limit settings dictionary `{enabled, calls, period}` used by
`RateLimitMiddleware` (`calls` is compared against queue lengths, `period`
against timestamp differences). -/
structure RLSettings where
  enabled : Bool
  calls : Nat
  period : Int
deriving DecidableEq, Repr

/-- Hardcoded default settings used on fetch failure:
`{"enabled": True, "calls": 5, "period": 60}`. -/
def defaultRLSettings : RLSettings := { enabled := true, calls := 5, period := 60 }

/-- The memory-bound purge in `is_rate_limited`: if the queue length
exceeds `calls * 2`, pop entries older than `now - period * 2`. -/
def purge_step (s : RLSettings) (now : Int) (q : List Int) : List Int :=
  if s.calls * 2 < q.length then
    q.dropWhile (fun ts => decide (ts < now - s.period * 2))
  else q

/-- The lazy eviction loop: pop entries with `now - ts > period`. -/
def evict_step (period now : Int) (q : List Int) : List Int :=
  q.dropWhile (fun ts => decide (period < now - ts))

/-- `RateLimitMiddleware.is_rate_limited` (the per-user queue part;
`is_rate_limited_async` has the identical body).  Input: current settings,
the current time, and the timestamp queue for the user.  Output: the
returned flag (`true` = limited/denied) and the updated queue. -/
def is_rate_limited (s : RLSettings) (now : Int) (q : List Int) : Bool × List Int :=
  if s.enabled = false then (false, q)
  else
    let q2 := evict_step s.period now (purge_step s now q)
    if s.calls ≤ q2.length then (true, q2)
    else (false, q2 ++ [now])

/-- Run a sequence of admission checks at the given times against one
user's queue, collecting the times of the allowed (not limited) checks. -/
def allowed_times (s : RLSettings) : List Int → List Int → List Int
  | _, [] => []
  | q, t :: ts =>
    let r := is_rate_limited s t q
    if r.1 then allowed_times s r.2 ts else t :: allowed_times s r.2 ts

/-- `RateLimitMiddleware.get_time_until_reset_async`: with a non-empty
queue, `max(0, period - (now - oldest_request))`. -/
def get_time_until_reset_async (period : Int) (q : List Int) (now : Int) : Int :=
  match q with
  | [] => 0
  | oldest :: _ => max 0 (period - (now - oldest))

/-- Membership of a time in the closed sliding window `[a, a + p]`. -/
def inWindow (a p t : Int) : Bool := decide (a ≤ t) && decide (t ≤ a + p)

/-- Gap property: any two entries of `L` that are `k` or more positions
apart differ by more than `p`. -/
def GapP (p : Int) (k : Nat) (L : List Int) : Prop :=
  ∀ i j : Nat, (hi : i < L.length) → (hj : j < L.length) → i + k ≤ j →
    p < L.get ⟨j, hj⟩ - L.get ⟨i, hi⟩

/-- Invariant tying the log `L` of allowed times to the live queue `q`
at lower time bound `t0` (all future check times are `≥ t0`):
the log is sorted, bounded by `t0`, the queue is a suffix of the log whose
dropped prefix is stale by more than a period, and the log satisfies the
gap property. -/
structure LimiterInv (p : Int) (k : Nat) (t0 : Int) (L q : List Int) : Prop where
  sorted : L.Sorted (· ≤ ·)
  le_t0 : ∀ x ∈ L, x ≤ t0
  split : ∃ P, L = P ++ q ∧ ∀ x ∈ P, p < t0 - x
  gap : GapP p k L

theorem dropWhile_decomp (pred : Int → Bool) (q : List Int) :
    ∃ r, q = r ++ q.dropWhile pred ∧ ∀ x ∈ r, pred x = true :=
  ⟨q.takeWhile pred, (List.takeWhile_append_dropWhile pred q).symm,
    fun _ hx => List.mem_takeWhile_imp hx⟩

theorem purge_step_decomp (s : RLSettings) (now : Int) (q : List Int) :
    ∃ r, q = r ++ purge_step s now q ∧ ∀ x ∈ r, x < now - s.period * 2 := by
  unfold purge_step
  split
  · obtain ⟨r, h1, h2⟩ := dropWhile_decomp (fun ts => decide (ts < now - s.period * 2)) q
    exact ⟨r, h1, fun x hx => by simpa using h2 x hx⟩
  · exact ⟨[], by simp, by simp⟩

theorem evict_step_decomp (period now : Int) (q : List Int) :
    ∃ r, q = r ++ evict_step period now q ∧ ∀ x ∈ r, period < now - x := by
  obtain ⟨r, h1, h2⟩ := dropWhile_decomp (fun ts => decide (period < now - ts)) q
  exact ⟨r, h1, fun x hx => by simpa using h2 x hx⟩

theorem get_of_append_left (A B : List Int) (i : Nat) (hiA : i < A.length)
    (hAB : i < (A ++ B).length) : (A ++ B).get ⟨i, hAB⟩ = A.get ⟨i, hiA⟩ := by
  simp only [List.get_eq_getElem]
  exact List.getElem_append_left hiA

theorem get_congr (L M : List Int) (h : L = M) (i : Nat) (hiL : i < L.length)
    (hiM : i < M.length) : L.get ⟨i, hiL⟩ = M.get ⟨i, hiM⟩ := by
  subst h
  rfl

theorem is_rate_limited_inv (s : RLSettings) (hen : s.enabled = true) (hp : 0 ≤ s.period)
    (t0 t : Int) (ht : t0 ≤ t) (L q : List Int)
    (h : LimiterInv s.period s.calls t0 L q) (b : Bool) (q' : List Int)
    (hres : is_rate_limited s t q = (b, q')) :
    LimiterInv s.period s.calls t (if b then L else L ++ [t]) q' := by
  obtain ⟨P, hPq, hPold⟩ := h.split
  obtain ⟨r1, hq1, hr1⟩ := purge_step_decomp s t q
  obtain ⟨r2, hq2, hr2⟩ := evict_step_decomp s.period t (purge_step s t q)
  set q2 := evict_step s.period t (purge_step s t q) with hq2def
  have hL : L = (P ++ (r1 ++ r2)) ++ q2 := by
    rw [hPq]
    conv_lhs => rw [hq1, hq2]
    simp [List.append_assoc]
  have hdropped : ∀ x ∈ P ++ (r1 ++ r2), s.period < t - x := by
    intro x hx
    rcases List.mem_append.mp hx with hx | hx
    · have := hPold x hx
      omega
    · rcases List.mem_append.mp hx with hx | hx
      · have := hr1 x hx
        omega
      · exact hr2 x hx
  simp only [is_rate_limited, hen, Bool.true_eq_false, if_false] at hres
  rw [← hq2def] at hres
  by_cases hfull : s.calls ≤ q2.length
  · rw [if_pos hfull] at hres
    injection hres with hb hq
    subst hb
    subst hq
    show LimiterInv s.period s.calls t L q2
    exact { sorted := h.sorted,
            le_t0 := fun x hx => le_trans (h.le_t0 x hx) ht,
            split := ⟨P ++ (r1 ++ r2), hL, hdropped⟩,
            gap := h.gap }
  · rw [if_neg hfull] at hres
    injection hres with hb hq
    subst hb
    subst hq
    show LimiterInv s.period s.calls t (L ++ [t]) (q2 ++ [t])
    have hsortedL : (L ++ [t]).Sorted (· ≤ ·) := by
      rw [List.Sorted, List.pairwise_append]
      exact ⟨h.sorted, List.pairwise_singleton _ _,
        fun x hx y hy => by
          rw [List.mem_singleton.mp hy]
          exact le_trans (h.le_t0 x hx) ht⟩
    refine { sorted := hsortedL,
             le_t0 := ?_,
             split := ⟨P ++ (r1 ++ r2), by rw [hL]; simp [List.append_assoc], hdropped⟩,
             gap := ?_ }
    · intro x hx
      rcases List.mem_append.mp hx with hx | hx
      · exact le_trans (h.le_t0 x hx) ht
      · rw [List.mem_singleton.mp hx]
    · intro i j hi hj hij
      have hlen : (L ++ [t]).length = L.length + 1 := by simp
      by_cases hjL : j < L.length
      · have hiL : i < L.length := by omega
        rw [get_of_append_left L [t] i hiL hi, get_of_append_left L [t] j hjL hj]
        exact h.gap i j hiL hjL hij
      · have hjeq : j = L.length := by
          rw [hlen] at hj
          omega
        have hgj : (L ++ [t]).get ⟨j, hj⟩ = t := by
          simp only [List.get_eq_getElem]
          exact List.getElem_concat_length L t j hjeq hj
        have hplen : (P ++ (r1 ++ r2)).length + q2.length = L.length := by
          rw [hL]
          simp only [List.length_append]
        have hq2short : q2.length < s.calls := by omega
        have hiP : i < (P ++ (r1 ++ r2)).length := by omega
        have hiL : i < L.length := by omega
        have hbound : i < (P ++ (r1 ++ r2) ++ q2).length := hL ▸ hiL
        have hgi : (L ++ [t]).get ⟨i, hi⟩ = (P ++ (r1 ++ r2)).get ⟨i, hiP⟩ :=
          (get_of_append_left L [t] i hiL hi).trans
            ((get_congr L _ hL i hiL hbound).trans
              (get_of_append_left (P ++ (r1 ++ r2)) q2 i hiP hbound))
        rw [hgi, hgj]
        exact hdropped _ ((P ++ (r1 ++ r2)).get_mem i hiP)

theorem allowed_times_inv (s : RLSettings) (hen : s.enabled = true) (hp : 0 ≤ s.period) :
    ∀ (ts : List Int) (t0 : Int) (L q : List Int),
      LimiterInv s.period s.calls t0 L q →
      ts.Pairwise (· ≤ ·) → (∀ x ∈ ts, t0 ≤ x) →
      (L ++ allowed_times s q ts).Sorted (· ≤ ·) ∧
      GapP s.period s.calls (L ++ allowed_times s q ts) := by
  intro ts
  induction ts with
  | nil =>
    intro t0 L q h _ _
    simp only [allowed_times, List.append_nil]
    exact ⟨h.sorted, h.gap⟩
  | cons t ts ih =>
    intro t0 L q h hpw hlb
    have ht0t : t0 ≤ t := hlb t (List.mem_cons_self t ts)
    have hpw' : ts.Pairwise (· ≤ ·) := (List.pairwise_cons.mp hpw).2
    have hhead : ∀ x ∈ ts, t ≤ x := (List.pairwise_cons.mp hpw).1
    rcases hres : is_rate_limited s t q with ⟨b, q2⟩
    have hstep := is_rate_limited_inv s hen hp t0 t ht0t L q h b q2 hres
    have hunf : allowed_times s q (t :: ts)
        = if b then allowed_times s q2 ts else t :: allowed_times s q2 ts := by
      show (if (is_rate_limited s t q).1 then allowed_times s (is_rate_limited s t q).2 ts
            else t :: allowed_times s (is_rate_limited s t q).2 ts) = _
      rw [hres]
    cases b with
    | true =>
      have hLeq : allowed_times s q (t :: ts) = allowed_times s q2 ts := by rw [hunf]; rfl
      rw [hLeq]
      exact ih t L q2 hstep hpw' hhead
    | false =>
      have hLeq : allowed_times s q (t :: ts) = t :: allowed_times s q2 ts := by rw [hunf]; rfl
      rw [hLeq, show L ++ t :: allowed_times s q2 ts
            = (L ++ [t]) ++ allowed_times s q2 ts by simp]
      exact ih t (L ++ [t]) q2 hstep hpw' hhead

theorem filter_window_eq (a hi : Int) :
    ∀ (L : List Int), L.Sorted (· ≤ ·) →
    L.filter (fun t => decide (a ≤ t) && decide (t ≤ hi))
      = (L.dropWhile (fun t => decide (t < a))).filter (fun t => decide (t ≤ hi)) := by
  intro L
  induction L with
  | nil => simp
  | cons x L ihL =>
    intro hs
    by_cases hxa : x < a
    · rw [List.dropWhile_cons_of_pos (by simpa using hxa)]
      rw [List.filter_cons_of_neg (by simp; omega)]
      exact ihL hs.of_cons
    · rw [List.dropWhile_cons_of_neg (by simpa using hxa)]
      apply List.filter_congr
      intro y hy
      have hay : a ≤ y := by
        rcases List.mem_cons.mp hy with rfl | hy
        · omega
        · have := List.rel_of_sorted_cons hs y hy
          omega
      simp [hay]

theorem dropWhile_eq_drop_length (p : Int → Bool) :
    ∀ l : List Int, l.dropWhile p = l.drop (l.takeWhile p).length := by
  intro l
  induction l with
  | nil => rfl
  | cons x l ihl =>
    by_cases h : p x
    · rw [List.dropWhile_cons_of_pos h, List.takeWhile_cons_of_pos h]
      simpa using ihl
    · rw [List.dropWhile_cons_of_neg h, List.takeWhile_cons_of_neg h]
      rfl

theorem window_count_le (p : Int) (k : Nat) (a : Int) (L : List Int)
    (hs : L.Sorted (· ≤ ·)) (hg : GapP p k L) :
    L.countP (inWindow a p) ≤ k := by
  have hcw : L.countP (inWindow a p)
      = (L.filter (fun t => decide (a ≤ t) && decide (t ≤ a + p))).length := by
    rw [List.countP_eq_length_filter]
    rfl
  rw [hcw, filter_window_eq a (a + p) L hs, dropWhile_eq_drop_length]
  set n := (L.takeWhile (fun t => decide (t < a))).length with hn
  by_cases hL2 : L.drop n = []
  · rw [hL2]
    simp
  · have hhd : a ≤ (L.drop n).head hL2 := by
      have := List.head_dropWhile_not (fun t => decide (t < a)) L
        (by rw [dropWhile_eq_drop_length]; exact hL2)
      have heq : (L.dropWhile (fun t => decide (t < a))).head
            (by rw [dropWhile_eq_drop_length]; exact hL2)
          = (L.drop n).head hL2 := by
        congr 1
        rw [dropWhile_eq_drop_length]
      rw [heq] at this
      simpa using this
    have hnlt : n < L.length := by
      by_contra hcon
      exact hL2 (List.drop_eq_nil_of_le (by omega))
    have h0 : a ≤ L.get ⟨n, hnlt⟩ := by
      have hhead_eq : (L.drop n).head hL2 = L.get ⟨n, hnlt⟩ := by
        simp only [List.get_eq_getElem]
        exact List.head_drop hL2
      rw [← hhead_eq]
      exact hhd
    have hkey : ∀ y ∈ (L.drop n).drop k, ¬ ((fun t => decide (t ≤ a + p)) y = true) := by
      intro y hy
      obtain ⟨j, hj, rfl⟩ := List.mem_iff_getElem.mp hy
      have hld : (L.drop n).length = L.length - n := List.length_drop n L
      have hldd : ((L.drop n).drop k).length = (L.drop n).length - k :=
        List.length_drop k (L.drop n)
      have hj2 : k + j < (L.drop n).length := by omega
      have hj3 : n + (k + j) < L.length := by omega
      have e1 : ((L.drop n).drop k)[j] = (L.drop n)[k + j] := List.getElem_drop (L.drop n)
      have e2 : (L.drop n)[k + j] = L[n + (k + j)] := List.getElem_drop L
      have hgap := hg n (n + (k + j)) hnlt hj3 (by omega)
      simp only [List.get_eq_getElem] at hgap h0
      rw [e1, e2]
      simp only [decide_eq_true_eq]
      omega
    calc ((L.drop n).filter (fun t => decide (t ≤ a + p))).length
        = (((L.drop n).take k ++ (L.drop n).drop k).filter
            (fun t => decide (t ≤ a + p))).length := by rw [List.take_append_drop]
      _ = (((L.drop n).take k).filter (fun t => decide (t ≤ a + p))).length
          + (((L.drop n).drop k).filter (fun t => decide (t ≤ a + p))).length := by
            rw [List.filter_append, List.length_append]
      _ = (((L.drop n).take k).filter (fun t => decide (t ≤ a + p))).length + 0 := by
            rw [List.filter_eq_nil_iff.mpr hkey]
            rfl
      _ ≤ k := by
            have h1 := ((L.drop n).take k).length_filter_le (fun t => decide (t ≤ a + p))
            have h2 := (L.drop n).length_take_le k
            omega

/-! ### Claim C1: sliding-window correctness -/

/-- C1: with the limiter enabled and fixed settings, for every sequence of
admission checks at non-decreasing times against one user key, the number
of allowed checks (is_rate_limited returning false) whose times fall in
any sliding window `[a, a + period]` never exceeds `calls`.  (The spec
invariant `period >= 1` is assumed as `0 <= period`.) -/
theorem rate_limit_window_correctness (s : RLSettings) (hen : s.enabled = true)
    (hp : 0 ≤ s.period) (ts : List Int) (hmono : ts.Chain' (· ≤ ·)) (a : Int) :
    (allowed_times s [] ts).countP (inWindow a s.period) ≤ s.calls := by
  cases ts with
  | nil => simp [allowed_times]
  | cons t ts =>
    have hpw : (t :: ts).Pairwise (· ≤ ·) := List.chain'_iff_pairwise.mp hmono
    have hinv : LimiterInv s.period s.calls t [] [] :=
      { sorted := List.sorted_nil,
        le_t0 := by simp,
        split := ⟨[], rfl, by simp⟩,
        gap := by
          intro i j hi hj hij
          simp at hi }
    have hlb : ∀ x ∈ t :: ts, t ≤ x := by
      intro x hx
      rcases List.mem_cons.mp hx with rfl | hx
      · exact le_refl x
      · exact (List.pairwise_cons.mp hpw).1 x hx
    have h := allowed_times_inv s hen hp (t :: ts) t [] [] hinv hpw hlb
    rw [List.nil_append] at h
    exact window_count_le s.period s.calls a (allowed_times s [] (t :: ts)) h.1 h.2

theorem rate_limit_window_correctness_witness :
    (allowed_times { enabled := true, calls := 2, period := 60 } [] [0, 1, 2, 3]).countP
        (inWindow 0 60) ≤ 2 :=
  rate_limit_window_correctness { enabled := true, calls := 2, period := 60 } rfl
    (by decide) [0, 1, 2, 3] (by simp [List.chain'_cons]) 0

/-! ### Claim C7: retry-after monotonicity -/

/-- C7: for a non-empty, non-refilled queue, the reported
`get_time_until_reset_async` value strictly decreases as `now` advances
toward the oldest entry's expiry `oldest + period`, and it is 0 exactly at
that expiry instant (within the approach interval). -/
theorem retry_after_monotone (period oldest n1 n2 : Int) (rest : List Int)
    (h12 : n1 < n2) (h2 : n2 ≤ oldest + period) :
    get_time_until_reset_async period (oldest :: rest) n2
        < get_time_until_reset_async period (oldest :: rest) n1 ∧
    (get_time_until_reset_async period (oldest :: rest) n2 = 0 ↔ n2 = oldest + period) := by
  simp only [get_time_until_reset_async]
  have e2 : max 0 (period - (n2 - oldest)) = period - (n2 - oldest) :=
    max_eq_right (by omega)
  constructor
  · rw [e2]
    calc period - (n2 - oldest) < period - (n1 - oldest) := by omega
      _ ≤ max 0 (period - (n1 - oldest)) := le_max_right 0 (period - (n1 - oldest))
  · rw [e2]
    omega

theorem retry_after_monotone_witness :
    get_time_until_reset_async 60 [0] 60 < get_time_until_reset_async 60 [0] 10 ∧
    (get_time_until_reset_async 60 [0] 60 = 0 ↔ (60 : Int) = 0 + 60) :=
  retry_after_monotone 60 0 10 60 [] (by decide) (by decide)

/-! ## Settings cache (`RateLimitMiddleware._get_rate_limit_settings`) -/

/-- Cache state of the middleware: `_cached_settings` and `_cache_time`
(`_cache_duration` is the constant 30). -/
structure SettingsCacheState where
  cached : Option RLSettings
  cacheTime : Int
deriving DecidableEq, Repr

/-- `_get_rate_limit_settings` along the settings-service path: when the
cache is empty or stale (`now - cacheTime > 30`), refetch; a successful
fetch stores the snapshot and refreshes `cacheTime`; a failed fetch stores
the hardcoded default (leaving `cacheTime` unchanged).  Otherwise the
cached value is served.  `fetch` is the outcome of
`settings_service.get_rate_limit_info()`. -/
def get_rate_limit_settings (st : SettingsCacheState) (now : Int)
    (fetch : Except Unit RLSettings) : RLSettings × SettingsCacheState :=
  if st.cached.isNone || decide (30 < now - st.cacheTime) then
    match fetch with
    | Except.ok s => (s, { cached := some s, cacheTime := now })
    | Except.error _ =>
        (defaultRLSettings, { cached := some defaultRLSettings, cacheTime := st.cacheTime })
  else
    (st.cached.getD defaultRLSettings, st)

/-! ### Claim C3: last-known-good fallback -/

/-- C3 counterexample: a previously fetched snapshot
`{enabled := true, calls := 3, period := 120}` exists and the fetch fails
after the TTL expired; the limiter serves the hardcoded default
`{enabled := true, calls := 5, period := 60}`, not the last-known-good
snapshot the claim promises. -/
theorem settings_fallback_counterexample :
    (get_rate_limit_settings
        { cached := some { enabled := true, calls := 3, period := 120 }, cacheTime := 0 }
        100 (Except.error ())).1
      = defaultRLSettings ∧
    defaultRLSettings ≠ { enabled := true, calls := 3, period := 120 } := by
  decide

/-- C3 (amended): on a fetch failure during a refetch (cache empty or
stale), the limiter always falls back to the hardcoded default
`{enabled: true, calls: 5, period: 60}` and overwrites the cached snapshot
with it, regardless of whether a previously fetched snapshot exists; a
prior snapshot is served only while the cache is fresh (no refetch is
attempted then). -/
theorem settings_fallback_default (st : SettingsCacheState) (now : Int)
    (hstale : st.cached = none ∨ 30 < now - st.cacheTime) :
    (get_rate_limit_settings st now (Except.error ())).1 = defaultRLSettings ∧
    (get_rate_limit_settings st now (Except.error ())).2.cached
      = some defaultRLSettings := by
  unfold get_rate_limit_settings
  rw [if_pos]
  · exact ⟨rfl, rfl⟩
  · rcases hstale with h | h
    · simp [h]
    · simp [h]

theorem settings_fallback_default_witness :
    (get_rate_limit_settings
        { cached := some { enabled := true, calls := 3, period := 120 }, cacheTime := 0 }
        100 (Except.error ())).1 = defaultRLSettings ∧
    (get_rate_limit_settings
        { cached := some { enabled := true, calls := 3, period := 120 }, cacheTime := 0 }
        100 (Except.error ())).2.cached = some defaultRLSettings :=
  settings_fallback_default
    { cached := some { enabled := true, calls := 3, period := 120 }, cacheTime := 0 }
    100 (Or.inr (by decide))

/-! ## User profiles and quota (`src/repositories/models.py`,
`src/services/user_service.py`) -/

/-- `UserProfile` dataclass (name/date metadata fields omitted: they carry
no quota logic). -/
structure UserProfile where
  user_id : Int
  requests_limit : Int
  requests_used : Int
  is_active : Bool
deriving DecidableEq, Repr

/-- `UserProfile.requests_remaining`: `max(0, limit - used)`. -/
def UserProfile.requests_remaining (p : UserProfile) : Int :=
  max 0 (p.requests_limit - p.requests_used)

/-- `UserProfile.can_make_request`: `requests_remaining > 0 and is_active`. -/
def UserProfile.can_make_request (p : UserProfile) : Bool :=
  decide (0 < p.requests_remaining) && p.is_active

/-- `UserService.can_make_request`: fetch from the user store and return
`user is not None and user.can_make_request` (no exception, no creation:
the store is read, never written). -/
def user_service_can_make_request (store : Int → Option UserProfile) (user_id : Int) :
    Bool :=
  match store user_id with
  | none => false
  | some user => user.can_make_request

/-! ### Claim C9: can_make_request semantics -/

/-- C9: for an unknown user the service returns false (total function —
no exception, and the store is not consulted for creation); for a known
user it returns true iff `requests_remaining > 0` and the user is active. -/
theorem can_make_request_semantics (store : Int → Option UserProfile) (user_id : Int) :
    (store user_id = none → user_service_can_make_request store user_id = false) ∧
    (∀ u, store user_id = some u →
      (user_service_can_make_request store user_id = true
        ↔ 0 < u.requests_remaining ∧ u.is_active = true)) := by
  constructor
  · intro h
    unfold user_service_can_make_request
    rw [h]
  · intro u h
    unfold user_service_can_make_request
    rw [h]
    simp [UserProfile.can_make_request]

theorem can_make_request_semantics_witness :
    user_service_can_make_request
        (fun i => if i = 1 then some (UserProfile.mk 1 50 0 true) else none) 2 = false ∧
    (user_service_can_make_request
        (fun i => if i = 1 then some (UserProfile.mk 1 50 0 true) else none) 1 = true
      ↔ 0 < (UserProfile.mk 1 50 0 true).requests_remaining
          ∧ (UserProfile.mk 1 50 0 true).is_active = true) :=
  ⟨(can_make_request_semantics
      (fun i => if i = 1 then some (UserProfile.mk 1 50 0 true) else none) 2).1 (by decide),
   (can_make_request_semantics
      (fun i => if i = 1 then some (UserProfile.mk 1 50 0 true) else none) 1).2
      (UserProfile.mk 1 50 0 true) (by decide)⟩

/-! ## Completion backend and message handler
(`src/services/openai_service.py`, `src/bot/handlers/messages.py`) -/

/-- The `openai` exception kinds caught by
`OpenAIService.generate_response`. -/
inductive ApiFailure where
  | rateLimitFailure
  | authFailure
  | timeoutFailure
  | connectionFailure
  | badRequestFailure (moderation : Bool)
  | statusFailure (code : Int)
  | apiFailure
deriving DecidableEq, Repr

/-- `OpenAIService.generate_response`: a successful backend call returns
its text; every caught exception is converted into a user-facing apology
string (the function returns normally in every case — callers cannot
distinguish failure from success). -/
def generate_response (useProxy : Bool) (baseUrl : String)
    (backend : Except ApiFailure String) : String :=
  match backend with
  | Except.ok text => text
  | Except.error ApiFailure.rateLimitFailure =>
      "⚠️ Превышен лимит запросов к OpenAI. Попробуйте позже."
  | Except.error ApiFailure.authFailure =>
      "❌ Ошибка аутентификации " ++ (if useProxy then "прокси" else "OpenAI")
        ++ ". Проверьте API ключ."
  | Except.error ApiFailure.timeoutFailure =>
      "⏱️ Превышено время ожидания ответа. Попробуйте еще раз."
  | Except.error ApiFailure.connectionFailure =>
      if useProxy then
        "❌ Ошибка подключения к прокси серверу. Проверьте доступность " ++ baseUrl
      else "❌ Ошибка подключения к OpenAI API. Проверьте интернет соединение."
  | Except.error (ApiFailure.badRequestFailure moderation) =>
      if moderation then "❌ Ваш запрос был отклонен системой модерации контента."
      else "❌ Ошибка в запросе к OpenAI: Некорректный запрос."
  | Except.error (ApiFailure.statusFailure code) =>
      "❌ Ошибка " ++ (if useProxy then "прокси сервера" else "OpenAI API")
        ++ ": " ++ toString code
  | Except.error ApiFailure.apiFailure =>
      "❌ Произошла ошибка на стороне " ++ (if useProxy then "прокси" else "OpenAI") ++ "."

/-- Per-user state touched by `MessageHandler.handle_text_message`
(profile after `get_or_create_user`, rolling context). -/
structure HandlerState where
  profile : UserProfile
  context : UserContext
deriving Repr

/-- `increment_user_requests` for an existing user: `requests_used += 1`. -/
def use_request_increment (p : UserProfile) : UserProfile :=
  { p with requests_used := p.requests_used + 1 }

/-- `MessageHandler.handle_text_message` for a plain text message (no
pending input state): rate-limit check, quota check, then the try-block:
append the user turn, call the completion service, append the assistant
turn, charge the quota (`use_request`), and reply with the remaining-quota
footer.  `rateLimited` is the result of `is_rate_limited_async`,
`timeLeft` of `get_time_until_reset_async`, and `backend` the outcome of
the completion call. -/
def handle_text_message (rateLimited : Bool) (timeLeft : Int) (st : HandlerState)
    (text : String) (useProxy : Bool) (baseUrl : String)
    (backend : Except ApiFailure String) : HandlerState × String :=
  if rateLimited then
    (st, "⏳ Слишком много запросов! Попробуй через " ++ toString timeLeft ++ " секунд.")
  else if st.profile.can_make_request = false then
    (st, "❌ У вас закончились запросы! Обратитесь к администратору для увеличения лимита.")
  else
    let ctx1 := st.context.add_message MessageRole.user text
    let ai := generate_response useProxy baseUrl backend
    let ctx2 := ctx1.add_message MessageRole.assistant ai
    let profile2 := use_request_increment st.profile
    ({ profile := profile2, context := ctx2 },
      ai ++ "\n\n💡 Осталось запросов: " ++ toString profile2.requests_remaining)

/-! ### Claim C2: quota charging on backend failure -/

/-- C2 counterexample: with the limiter passing and quota available, a
backend timeout still increments `requests_used` from 0 to 1, because
`generate_response` swallows the exception and returns an apology string,
after which the handler reaches `use_request` normally. -/
theorem quota_charged_on_timeout_counterexample :
    ((handle_text_message false 0
        { profile := UserProfile.mk 1 50 0 true, context := freshContext 1 10 }
        "hi" false "" (Except.error ApiFailure.timeoutFailure)).1).profile.requests_used
      = 1 := by
  rfl

/-- C2 (amended): when the completion backend fails with a timeout,
connection error, authentication error, backend rate limit, or any other
caught kind, `generate_response` returns an apology string instead of
raising, so `handle_text_message` still invokes `use_request`: the daily
quota counter is incremented exactly as on success.  `use_request` is
skipped only on the rate-limit and quota pre-checks (or if an exception
escapes some other step of the try-block). -/
theorem quota_charged_on_backend_failure (st : HandlerState) (timeLeft : Int)
    (text : String) (useProxy : Bool) (baseUrl : String) (f : ApiFailure)
    (hok : st.profile.can_make_request = true) :
    ((handle_text_message false timeLeft st text useProxy baseUrl
        (Except.error f)).1).profile.requests_used
      = st.profile.requests_used + 1 := by
  unfold handle_text_message
  rw [if_neg (by simp)]
  rw [if_neg (by simp [hok])]
  rfl

theorem quota_charged_on_backend_failure_witness :
    ((handle_text_message false 0
        { profile := UserProfile.mk 1 50 0 true, context := freshContext 1 10 }
        "hi" false "" (Except.error ApiFailure.connectionFailure)).1).profile.requests_used
      = (UserProfile.mk 1 50 0 true).requests_used + 1 :=
  quota_charged_on_backend_failure
    { profile := UserProfile.mk 1 50 0 true, context := freshContext 1 10 }
    0 "hi" false "" ApiFailure.connectionFailure (by decide)

/-! ## Access control (`src/repositories/models.py`, `AccessControl`) -/

/-- `AccessControl` dataclass (message-template fields omitted). -/
structure AccessControl where
  mode : String
  whitelist : List Int
  blacklist : List Int
deriving DecidableEq, Repr

/-- Default-constructed `AccessControl`: public mode, empty lists. -/
def defaultAccessControl : AccessControl :=
  { mode := "public", whitelist := [], blacklist := [] }

/-- `add_to_whitelist`: append if absent (no blacklist check). -/
def AccessControl.add_to_whitelist (ac : AccessControl) (user_id : Int) : AccessControl :=
  if user_id ∉ ac.whitelist then { ac with whitelist := ac.whitelist ++ [user_id] } else ac

/-- `remove_from_whitelist`: `list.remove` of the first occurrence,
guarded by membership. -/
def AccessControl.remove_from_whitelist (ac : AccessControl) (user_id : Int) :
    AccessControl :=
  if user_id ∈ ac.whitelist then { ac with whitelist := ac.whitelist.erase user_id } else ac

/-- `add_to_blacklist`: if the user is not yet blacklisted, append to the
blacklist and remove from the whitelist; otherwise do nothing at all. -/
def AccessControl.add_to_blacklist (ac : AccessControl) (user_id : Int) : AccessControl :=
  if user_id ∉ ac.blacklist then
    ({ ac with blacklist := ac.blacklist ++ [user_id] }).remove_from_whitelist user_id
  else ac

/-- `remove_from_blacklist`: erase the first occurrence, guarded. -/
def AccessControl.remove_from_blacklist (ac : AccessControl) (user_id : Int) :
    AccessControl :=
  if user_id ∈ ac.blacklist then { ac with blacklist := ac.blacklist.erase user_id } else ac

/-- The four whitelist/blacklist mutators of `AccessControl`. -/
inductive ACOp where
  | addWhite (u : Int)
  | removeWhite (u : Int)
  | addBlack (u : Int)
  | removeBlack (u : Int)
deriving DecidableEq, Repr

def applyACOp (ac : AccessControl) (op : ACOp) : AccessControl :=
  match op with
  | ACOp.addWhite u => ac.add_to_whitelist u
  | ACOp.removeWhite u => ac.remove_from_whitelist u
  | ACOp.addBlack u => ac.add_to_blacklist u
  | ACOp.removeBlack u => ac.remove_from_blacklist u

def runACOps (ac : AccessControl) (ops : List ACOp) : AccessControl :=
  ops.foldl applyACOp ac

theorem nodup_append_absent (l : List Int) (u : Int) (h : l.Nodup) (hu : u ∉ l) :
    (l ++ [u]).Nodup := by
  rw [List.nodup_append]
  refine ⟨h, List.nodup_singleton u, ?_⟩
  intro x hx hx1
  rw [List.mem_singleton.mp hx1] at hx
  exact hu hx

theorem applyACOp_nodup (ac : AccessControl) (op : ACOp)
    (hw : ac.whitelist.Nodup) (hb : ac.blacklist.Nodup) :
    (applyACOp ac op).whitelist.Nodup ∧ (applyACOp ac op).blacklist.Nodup := by
  cases op with
  | addWhite u =>
    show (ac.add_to_whitelist u).whitelist.Nodup ∧ (ac.add_to_whitelist u).blacklist.Nodup
    unfold AccessControl.add_to_whitelist
    by_cases h : u ∈ ac.whitelist
    · rw [if_neg (by simpa using h)]
      exact ⟨hw, hb⟩
    · rw [if_pos (by simpa using h)]
      exact ⟨nodup_append_absent _ u hw h, hb⟩
  | removeWhite u =>
    show (ac.remove_from_whitelist u).whitelist.Nodup
        ∧ (ac.remove_from_whitelist u).blacklist.Nodup
    unfold AccessControl.remove_from_whitelist
    by_cases h : u ∈ ac.whitelist
    · rw [if_pos h]
      exact ⟨hw.erase u, hb⟩
    · rw [if_neg h]
      exact ⟨hw, hb⟩
  | addBlack u =>
    show (ac.add_to_blacklist u).whitelist.Nodup ∧ (ac.add_to_blacklist u).blacklist.Nodup
    unfold AccessControl.add_to_blacklist AccessControl.remove_from_whitelist
    by_cases h : u ∈ ac.blacklist
    · rw [if_neg (by simpa using h)]
      exact ⟨hw, hb⟩
    · rw [if_pos (by simpa using h)]
      by_cases h2 : u ∈ ac.whitelist
      · rw [if_pos h2]
        exact ⟨hw.erase u, nodup_append_absent _ u hb h⟩
      · rw [if_neg h2]
        exact ⟨hw, nodup_append_absent _ u hb h⟩
  | removeBlack u =>
    show (ac.remove_from_blacklist u).whitelist.Nodup
        ∧ (ac.remove_from_blacklist u).blacklist.Nodup
    unfold AccessControl.remove_from_blacklist
    by_cases h : u ∈ ac.blacklist
    · rw [if_pos h]
      exact ⟨hw, hb.erase u⟩
    · rw [if_neg h]
      exact ⟨hw, hb⟩

theorem runACOps_nodup (ops : List ACOp) :
    ∀ ac : AccessControl, ac.whitelist.Nodup → ac.blacklist.Nodup →
    (runACOps ac ops).whitelist.Nodup ∧ (runACOps ac ops).blacklist.Nodup := by
  induction ops with
  | nil => exact fun ac hw hb => ⟨hw, hb⟩
  | cons op rest ih =>
    intro ac hw hb
    have hstep := applyACOp_nodup ac op hw hb
    exact ih (applyACOp ac op) hstep.1 hstep.2

theorem add_to_blacklist_post (ac : AccessControl) (u : Int) (hw : ac.whitelist.Nodup) :
    u ∈ (ac.add_to_blacklist u).blacklist ∧
    (u ∉ ac.blacklist → u ∉ (ac.add_to_blacklist u).whitelist) := by
  unfold AccessControl.add_to_blacklist AccessControl.remove_from_whitelist
  by_cases h : u ∈ ac.blacklist
  · rw [if_neg (by simpa using h)]
    exact ⟨h, fun hc => absurd h hc⟩
  · rw [if_pos (by simpa using h)]
    constructor
    · by_cases h2 : u ∈ ac.whitelist
      · rw [if_pos h2]
        simp
      · rw [if_neg h2]
        simp
    · intro _
      by_cases h2 : u ∈ ac.whitelist
      · rw [if_pos h2]
        intro hc
        exact ((List.Nodup.mem_erase_iff hw).mp hc).1 rfl
      · rw [if_neg h2]
        exact h2

/-! ### Claim C10: blacklist/whitelist exclusivity -/

/-- C10 counterexample: blacklist 5, then whitelist 5 (the whitelist add
never checks the blacklist), then blacklist 5 again — the second
`add_to_blacklist` is a no-op because 5 is already blacklisted, so its
whitelist removal is skipped and 5 ends up on both lists, violating the
claimed postcondition of `add_to_blacklist`. -/
theorem blacklist_whitelist_counterexample :
    5 ∈ (runACOps defaultAccessControl
          [ACOp.addBlack 5, ACOp.addWhite 5, ACOp.addBlack 5]).blacklist ∧
    5 ∈ (runACOps defaultAccessControl
          [ACOp.addBlack 5, ACOp.addWhite 5, ACOp.addBlack 5]).whitelist := by
  decide

/-- C10 (amended): after any sequence of whitelist/blacklist operations
starting from the default state, neither list contains duplicates, and
immediately after `add_to_blacklist u` the user is in the blacklist;
moreover, if `u` was not already blacklisted, `u` is also removed from the
whitelist.  (If `u` was already blacklisted the call is a no-op, so a
whitelist entry added after the first blacklisting survives.) -/
theorem access_control_invariant (ops : List ACOp) (u : Int) :
    (runACOps defaultAccessControl ops).whitelist.Nodup ∧
    (runACOps defaultAccessControl ops).blacklist.Nodup ∧
    u ∈ ((runACOps defaultAccessControl ops).add_to_blacklist u).blacklist ∧
    (u ∉ (runACOps defaultAccessControl ops).blacklist →
      u ∉ ((runACOps defaultAccessControl ops).add_to_blacklist u).whitelist) := by
  obtain ⟨hw, hb⟩ := runACOps_nodup ops defaultAccessControl
    List.nodup_nil List.nodup_nil
  have hpost := add_to_blacklist_post (runACOps defaultAccessControl ops) u hw
  exact ⟨hw, hb, hpost.1, hpost.2⟩

theorem access_control_invariant_witness :
    (runACOps defaultAccessControl [ACOp.addWhite 7]).whitelist.Nodup ∧
    (runACOps defaultAccessControl [ACOp.addWhite 7]).blacklist.Nodup ∧
    7 ∈ ((runACOps defaultAccessControl [ACOp.addWhite 7]).add_to_blacklist 7).blacklist ∧
    (7 ∉ (runACOps defaultAccessControl [ACOp.addWhite 7]).blacklist →
      7 ∉ ((runACOps defaultAccessControl [ACOp.addWhite 7]).add_to_blacklist 7).whitelist) :=
  access_control_invariant [ACOp.addWhite 7] 7

/-! ## Daily reset scheduler (`src/main.py`, `VKBot.daily_reset_scheduler`)

Wall-clock instants are modelled as whole seconds (`Nat`); a calendar day
is the quotient by 86400.  The simulated clock is ideal: each
`asyncio.sleep` wakes exactly at its target instant ("absent clock
anomalies"). -/

def seconds_per_day : Nat := 86400

/-- `now.replace(hour=0, ...) + timedelta(days=1)`: the upcoming midnight
strictly after the start of the current day. -/
def next_midnight (t : Nat) : Nat := (t / seconds_per_day + 1) * seconds_per_day

/-- Scheduler loop state: current instant and the instants at which
`reset_all_users_requests` was invoked so far. -/
structure SchedulerState where
  now : Nat
  reset_times : List Nat
deriving DecidableEq, Repr

/-- One iteration of the `while True` loop: sleep until the next midnight,
invoke the global reset (whose failure `ok = false` is caught and logged,
leaving control flow unchanged), then sleep one guard second. -/
def scheduler_iteration (_ok : Bool) (st : SchedulerState) : SchedulerState :=
  let wake := next_midnight st.now
  { now := wake + 1, reset_times := st.reset_times ++ [wake] }

/-- Run `n` loop iterations; `outcomes i` tells whether the reset of
iteration `i` succeeds. -/
def scheduler_run (outcomes : Nat → Bool) (st : SchedulerState) : Nat → SchedulerState
  | 0 => st
  | n + 1 => scheduler_iteration (outcomes n) (scheduler_run outcomes st n)

/-- Closed form of the firing instants: the `i`-th reset fires at the
`(i+1)`-st midnight after the start instant. -/
def fire_time (t0 : Nat) (i : Nat) : Nat :=
  (t0 / seconds_per_day + 1 + i) * seconds_per_day

theorem next_midnight_fire (t0 : Nat) (i : Nat) :
    next_midnight (fire_time t0 i + 1) = fire_time t0 (i + 1) := by
  unfold next_midnight fire_time seconds_per_day
  have hdiv : ((t0 / 86400 + 1 + i) * 86400 + 1) / 86400 = t0 / 86400 + 1 + i := by
    rw [Nat.mul_comm, Nat.mul_add_div (by norm_num)]
    norm_num
  rw [hdiv]
  ring

theorem scheduler_run_closed (outcomes : Nat → Bool) (t0 : Nat) :
    ∀ n : Nat,
      (scheduler_run outcomes ⟨t0, []⟩ n).reset_times
        = (List.range n).map (fire_time t0) ∧
      (scheduler_run outcomes ⟨t0, []⟩ n).now
        = (if n = 0 then t0 else fire_time t0 (n - 1) + 1) := by
  intro n
  induction n with
  | zero => exact ⟨rfl, rfl⟩
  | succ n ihn =>
    obtain ⟨h1, h2⟩ := ihn
    have hwake : next_midnight (scheduler_run outcomes ⟨t0, []⟩ n).now = fire_time t0 n := by
      rw [h2]
      by_cases hn : n = 0
      · subst hn
        rfl
      · rw [if_neg hn, next_midnight_fire]
        congr 1
        omega
    constructor
    · show (scheduler_iteration (outcomes n) (scheduler_run outcomes ⟨t0, []⟩ n)).reset_times
          = (List.range (n + 1)).map (fire_time t0)
      unfold scheduler_iteration
      rw [List.range_succ, List.map_append, ← h1, hwake]
      rfl
    · show (scheduler_iteration (outcomes n) (scheduler_run outcomes ⟨t0, []⟩ n)).now
          = (if n + 1 = 0 then t0 else fire_time t0 (n + 1 - 1) + 1)
      unfold scheduler_iteration
      rw [hwake]
      simp

/-! ### Claim C8: one reset per calendar day -/

/-- C8: over an ideally simulated clock, the scheduler loop fires the
global reset exactly at consecutive midnights: the trace of invocation
instants is independent of reset success/failure (exceptions are caught,
the loop continues), each firing lies on a calendar day one greater than
the previous, consecutive firings are exactly 86400 seconds apart (never
two within a 24-hour window), and every calendar day after the start day
that the run reaches is hit exactly once (never zero). -/
theorem daily_reset_once_per_day (t0 : Nat) (outcomes : Nat → Bool) (n : Nat) :
    (scheduler_run outcomes ⟨t0, []⟩ n).reset_times
        = (List.range n).map (fire_time t0) ∧
    (∀ i, fire_time t0 i / seconds_per_day = t0 / seconds_per_day + 1 + i) ∧
    (∀ i, fire_time t0 (i + 1) = fire_time t0 i + seconds_per_day) ∧
    (∀ d, t0 / seconds_per_day < d → d ≤ t0 / seconds_per_day + n →
      ∃ i, i < n ∧ fire_time t0 i / seconds_per_day = d ∧
        ∀ j, j < n → fire_time t0 j / seconds_per_day = d → j = i) := by
  have hdiv : ∀ i, fire_time t0 i / seconds_per_day = t0 / seconds_per_day + 1 + i := by
    intro i
    unfold fire_time seconds_per_day
    exact Nat.mul_div_cancel _ (by norm_num)
  refine ⟨(scheduler_run_closed outcomes t0 n).1, hdiv, ?_, ?_⟩
  · intro i
    unfold fire_time seconds_per_day
    ring
  · intro d hd1 hd2
    refine ⟨d - t0 / seconds_per_day - 1, by omega, ?_, ?_⟩
    · rw [hdiv]
      omega
    · intro j hj hjd
      rw [hdiv] at hjd
      omega

theorem daily_reset_once_per_day_witness :
    (scheduler_run (fun i => i == 0) ⟨0, []⟩ 2).reset_times
      = (List.range 2).map (fire_time 0) :=
  (daily_reset_once_per_day 0 (fun i => i == 0) 2).1

end VkBot
